import Mathlib

set_option maxRecDepth 100000

/-!
Shallow embedding of the constant-generation scripts of the
`vdf-fpga-round1-results` repository.

* `Modterms` embeds `silicon_tailor-291/modular_square/model/vdf_metzgen_modterms.py`:
  the adder-term decomposition generator and its self-test on the sample operand.
* `Modtest` embeds the relevant parts of
  `silicon_tailor-291/modular_square/model/vdf_metzgen_modtest.py`:
  the alternative `ALLSIGNBITS` construction and the `bigmodR` primitive.
* `GenReductionLut` embeds
  `andreas_brokalakis/modular_square/lut_generator/gen_reduction_lut.py`:
  the reduction-table generator.

All Python integers are non-negative throughout these scripts, so they are
modelled as `Nat`; the one subtraction that conceptually happens in ℤ
(`adderterms0`) is modelled through `Int` with `%` (Euclidean remainder, which
agrees with Python `%` for a positive modulus).
-/

namespace Modterms

/-- The fixed 1024-bit modulus `N` of the source. -/
def N : Nat := 124066695684124741398798927404814432744698427125735684128131855064976895337309138910015071214657674309443149407457493434579063840841220334555160125016331040933690674569571217337630239191517205721310197608387239846364360850220896772964978569683229449266819903414117058030106528073928633017118689826625594484331

def LOGNUMSYMBOLS : Nat := 5

def LOGRADIX : Nat := 33

def MODULUS : Nat := N

/-- The concrete sample operand `x = 4` of the self-test. -/
def x : Nat := 4

/-- `MODBITWIDTH = LOGRADIX * (1 << LOGNUMSYMBOLS)`, parametrised by the geometry. -/
def MODBITWIDTH (L r : Nat) : Nat := r * (1 <<< L)

/-- `signsymbol = 1 << (LOGRADIX + 1)`: a single set bit at the sign-bit position. -/
def signsymbol (r : Nat) : Nat := 1 <<< (r + 1)

/-- `n` iterations of the loop body `acc = (acc << r) + s`, starting from `acc = 0`. -/
def signAccum (r s : Nat) : Nat → Nat
  | 0 => 0
  | n + 1 => (signAccum r s n <<< r) + s

/-- `ALLSIGNBITS`: the sign-bit mask, accumulated over `2 << LOGNUMSYMBOLS` slots. -/
def ALLSIGNBITS (L r : Nat) : Nat := signAccum r (signsymbol r) (2 <<< L)

/-- `adderterms0 = ((MODULUS << (MODBITWIDTH * 3)) - ALLSIGNBITS) % MODULUS`.
The subtraction happens in ℤ in Python, so it is modelled through `Int`. -/
def adderterms0 (L r M : Nat) : Nat :=
  ((((M <<< (MODBITWIDTH L r * 3) : Nat) : Int) - (ALLSIGNBITS L r : Int)) % (M : Int)).toNat

def adderterms1 : Nat := 0

/-- `adderterms2`: accumulated over the `range(1, 1 << LOGNUMSYMBOLS)` loop,
i.e. `(1 << LOGNUMSYMBOLS) - 1` iterations. -/
def adderterms2 (L r : Nat) : Nat := signAccum r (signsymbol r) ((1 <<< L) - 1)

/-- `iter = (i-3)*6 + (2+LOGRADIX)*(1 << LOGNUMSYMBOLS) - 2`. -/
def iterBase (L r i : Nat) : Nat := (i - 3) * 6 + (2 + r) * (1 <<< L) - 2

/-- Contribution of the flat bit position `p` to an adder term: the body of the
inner `j` loop of the source, at `p = iter + j`. -/
def bitContrib (L r M x p : Nat) : Nat :=
  let SYM := p / (2 + r)
  let BIT := p % (2 + r)
  if SYM < 2 <<< L then
    let MOD := (1 <<< (SYM * r + BIT)) % M
    let xraw := (x >>> p) &&& 1
    let xiter := if BIT = 1 + r then 1 - xraw else xraw
    if xiter ≠ 0 then MOD else 0
  else 0

/-- Sum `f 0 + f 1 + ... + f (n-1)`, the accumulation pattern of the loops. -/
def sumRange (f : Nat → Nat) : Nat → Nat
  | 0 => 0
  | n + 1 => sumRange f n + f n

/-- `term` accumulated for loop index `i`: the inner `j in range(0, 6)` loop. -/
def termAt (L r M x i : Nat) : Nat :=
  sumRange (fun j => bitContrib L r M x (iterBase L r i + j)) 6

/-- `sumofadderterms`: the three structural terms plus all terms of the
`i in range(3, 250)` loop. -/
def sumofadderterms (L r M x : Nat) : Nat :=
  adderterms0 L r M + adderterms1 + adderterms2 L r +
    sumRange (fun k => termAt L r M x (3 + k)) (250 - 3)

end Modterms

namespace Modtest

/-- The `ALLSIGNBITS` loop body of `vdf_metzgen_modtest.py`: `acc = (acc << r) + 2`. -/
def signAccum2 (r : Nat) : Nat → Nat
  | 0 => 0
  | n + 1 => (signAccum2 r n <<< r) + 2

/-- `ALLSIGNBITS` as built in `vdf_metzgen_modtest.py`: `2 << LOGNUMSYMBOLS`
iterations of `acc = (acc << r) + 2`, followed by one final shift by `r`. -/
def ALLSIGNBITS (L r : Nat) : Nat := signAccum2 r (2 <<< L) <<< r

/-- The guarded single subtraction `if v >= m: v = v - m` of `bigmodR`. -/
def condSub (m v : Nat) : Nat := if m ≤ v then v - m else v

/-- The `while (x != 0)` loop of `bigmodR`, carrying `term`, `x` and
`twopowerimodm`. -/
def bigmodRAux (m term x tp : Nat) : Nat :=
  if h : x = 0 then term
  else
    bigmodRAux m (if x &&& 1 ≠ 0 then condSub m (term + tp) else term) (x >>> 1)
      (condSub m (tp <<< 1))
termination_by x
decreasing_by
  simp only [Nat.shiftRight_one]
  exact Nat.div_lt_self (Nat.pos_of_ne_zero h) Nat.one_lt_two

/-- `bigmodR(_x, m, _twopowerimodm)` of the source. -/
def bigmodR (x m tp : Nat) : Nat := bigmodRAux m 0 x tp

end Modtest

namespace GenReductionLut

def REDUNDANT_ELEMENTS : Nat := 2

def NONREDUNDANT_ELEMENTS : Nat := 64

def NUM_SEGMENTS : Nat := 1

def WORD_LEN : Nat := 16

/-- The default modulus (the `NONREDUNDANT_ELEMENTS != 128` branch of the source). -/
def M : Nat := 302934307671667531413257853548643485645

def LUT_NUM_ELEMENTS : Nat := 33

def LOOK_UP_WIDTH (wordLen : Nat) : Nat := wordLen / 2

def LUT8_SIZE (wordLen : Nat) : Nat := 2 ^ LOOK_UP_WIDTH wordLen

def LUT9_SIZE (wordLen : Nat) : Nat := 2 ^ (LOOK_UP_WIDTH wordLen + 1)

/-- Polynomial degree offset for V7V6, a fixed design constant. -/
def offset : Nat := 8

/-- `t_lut8 = (2**((i + NONREDUNDANT_ELEMENTS) * WORD_LEN)) % M`. -/
def t_lut8 (Mv nre wordLen i : Nat) : Nat := 2 ^ ((i + nre) * wordLen) % Mv

/-- `t_lut9 = (2**(((i + NONREDUNDANT_ELEMENTS) * WORD_LEN) + offset)) % M`. -/
def t_lut9 (Mv nre wordLen i : Nat) : Nat := 2 ^ ((i + nre) * wordLen + offset) % Mv

/-- `cur_lut8 = (t_lut8 * j) % M`. -/
def lut8Entry (Mv nre wordLen i j : Nat) : Nat := t_lut8 Mv nre wordLen i * j % Mv

/-- `cur_lut9 = (t_lut9 * j) % M`. -/
def lut9Entry (Mv nre wordLen i j : Nat) : Nat := t_lut9 Mv nre wordLen i * j % Mv

/-- One pass of the `for j in range(LUT8_SIZE)` write loop: the table entries in
increasing address order. -/
def lut8Table (Mv nre wordLen i : Nat) : List Nat :=
  (List.range (LUT8_SIZE wordLen)).map (lut8Entry Mv nre wordLen i)

/-- One pass of the `for j in range(LUT9_SIZE)` write loop. -/
def lut9Table (Mv nre wordLen i : Nat) : List Nat :=
  (List.range (LUT9_SIZE wordLen)).map (lut9Entry Mv nre wordLen i)

/-- The lines written to `precompute_lut8_{i:03d}.dat`: the source runs the same
write loop twice into the same open file (the `i = i + 1` between the two loops
does not enter `t_lut8`, which was computed before), so the file holds two
identical halves. -/
def lut8File (Mv nre wordLen i : Nat) : List Nat :=
  lut8Table Mv nre wordLen i ++ lut8Table Mv nre wordLen i

/-- The lines written to `precompute_lut9_{i:03d}.dat`: likewise two identical
halves. -/
def lut9File (Mv nre wordLen i : Nat) : List Nat :=
  lut9Table Mv nre wordLen i ++ lut9Table Mv nre wordLen i

end GenReductionLut

/-! ## Helper lemmas -/

/-- Reading a `List.range`-mapped table at an in-range address yields the entry
function at that address. -/
theorem range_map_getD (f : Nat → Nat) (n j : Nat) (hj : j < n) :
    ((List.range n).map f).getD j 0 = f j := by
  rw [List.getD_eq_getElem?_getD, List.getElem?_map, List.getElem?_range hj]
  rfl

/-- The guarded single subtraction leaves the residue class unchanged. -/
theorem condSub_mod (m v : Nat) : Modtest.condSub m v % m = v % m := by
  unfold Modtest.condSub
  split
  · exact (Nat.mod_eq_sub_mod (by assumption)).symm
  · rfl

/-- The guarded single subtraction fully reduces a value below `2 * m`. -/
theorem condSub_lt (m v : Nat) (h : v < 2 * m) : Modtest.condSub m v < m := by
  unfold Modtest.condSub
  split <;> omega

/-- The guarded single subtraction keeps a value below `2 * m` at most `m`. -/
theorem condSub_le (m v : Nat) (h : v ≤ 2 * m) : Modtest.condSub m v ≤ m := by
  unfold Modtest.condSub
  split <;> omega

/-- Loop invariant of `bigmodR`: from accumulator `term < m` and running power
`tp ≤ m`, the loop returns `(term + x * tp) % m`. -/
theorem bigmodRAux_eq (m : Nat) (hm : 0 < m) :
    ∀ x term tp, term < m → tp ≤ m →
      Modtest.bigmodRAux m term x tp = (term + x * tp) % m := by
  intro x
  induction x using Nat.strong_induction_on with
  | _ x ih =>
    intro term tp hterm htp
    rw [Modtest.bigmodRAux]
    split
    · rename_i hx
      subst hx
      simp [Nat.mod_eq_of_lt hterm]
    · rename_i hx
      have hhalf : x >>> 1 < x := by
        rw [Nat.shiftRight_one]
        exact Nat.div_lt_self (Nat.pos_of_ne_zero hx) Nat.one_lt_two
      have hterm' : (if x &&& 1 ≠ 0 then Modtest.condSub m (term + tp) else term) < m := by
        split
        · exact condSub_lt m (term + tp) (by omega)
        · exact hterm
      have htp' : Modtest.condSub m (tp <<< 1) ≤ m := by
        apply condSub_le
        rw [Nat.shiftLeft_eq, pow_one]
        omega
      rw [ih (x >>> 1) hhalf _ _ hterm' htp']
      have e1 : (if x &&& 1 ≠ 0 then Modtest.condSub m (term + tp) else term)
          ≡ term + x % 2 * tp [MOD m] := by
        simp only [Nat.and_one_is_mod]
        by_cases hb : x % 2 = 0
        · simp [hb, Nat.ModEq.refl]
        · have hb1 : x % 2 = 1 := by omega
          rw [if_pos hb, hb1]
          show Modtest.condSub m (term + tp) % m = (term + 1 * tp) % m
          rw [condSub_mod, Nat.one_mul]
      have e2 : Modtest.condSub m (tp <<< 1) ≡ 2 * tp [MOD m] := by
        show Modtest.condSub m (tp <<< 1) % m = (2 * tp) % m
        rw [condSub_mod, Nat.shiftLeft_eq, pow_one, Nat.mul_comm]
      refine (Nat.ModEq.add e1 (Nat.ModEq.mul_left (x >>> 1) e2)).trans ?_
      show (term + x % 2 * tp + x >>> 1 * (2 * tp)) % m = (term + x * tp) % m
      rw [Nat.shiftRight_one]
      have hx2 : 2 * (x / 2) + x % 2 = x := Nat.div_add_mod x 2
      have harith : term + x % 2 * tp + x / 2 * (2 * tp)
          = term + (2 * (x / 2) + x % 2) * tp := by ring
      rw [harith, hx2]

/-- The two sign-mask accumulation loops agree up to the trailing shift. -/
theorem signAccum_shiftLeft (r : Nat) :
    ∀ n, Modterms.signAccum r (Modterms.signsymbol r) n = Modtest.signAccum2 r n <<< r
  | 0 => by simp [Modterms.signAccum, Modtest.signAccum2, Nat.zero_shiftLeft]
  | n + 1 => by
    show (Modterms.signAccum r (Modterms.signsymbol r) n <<< r) + Modterms.signsymbol r
        = Modtest.signAccum2 r (n + 1) <<< r
    rw [signAccum_shiftLeft r n]
    simp only [Modtest.signAccum2, Modterms.signsymbol, Nat.shiftLeft_eq, pow_succ]
    ring

/-! ## Claim theorems -/

/-- Claim C1, counterexample: with the reference parameters and the sample
operand `x = 4`, the total sum of all adder terms taken modulo `MODULUS` does
NOT equal `x % MODULUS`. -/
theorem selftest_sum_ne :
    ¬ (Modterms.sumofadderterms Modterms.LOGNUMSYMBOLS Modterms.LOGRADIX Modterms.MODULUS
        Modterms.x % Modterms.MODULUS = Modterms.x % Modterms.MODULUS) := by
  decide

/-- Claim C1, amended: with the reference parameters and the sample operand
`x = 4`, the total sum of all adder terms taken modulo `MODULUS` equals `0`
(not `x % MODULUS = 4`): the operand's only set bit lies below the bit-position
window covered by the loop terms, and `adderterms1` is fixed at `0`. -/
theorem selftest_sum_eq_zero :
    Modterms.sumofadderterms Modterms.LOGNUMSYMBOLS Modterms.LOGRADIX Modterms.MODULUS
      Modterms.x % Modterms.MODULUS = 0 := by
  decide

/-- Claim C2: the two base multipliers of the reduction-table generator are
`t_lut8 = 2^((i + nre) * wordLen) mod M` and
`t_lut9 = 2^((i + nre) * wordLen + 8) mod M` (the offset is the fixed constant
`8`); in particular, at the default configuration and chunk `i = 0`, the
`lut8_0` table entry at address `1` equals `2^1024 mod M` and the entry at
address `0` equals `0`. -/
theorem t_lut_formulas (Mv nre wl i : Nat) (hi : i < GenReductionLut.LUT_NUM_ELEMENTS) :
    GenReductionLut.t_lut8 Mv nre wl i = 2 ^ ((i + nre) * wl) % Mv ∧
    GenReductionLut.t_lut9 Mv nre wl i = 2 ^ ((i + nre) * wl + 8) % Mv ∧
    (GenReductionLut.lut8Table GenReductionLut.M GenReductionLut.NONREDUNDANT_ELEMENTS
        GenReductionLut.WORD_LEN 0).getD 1 0 = 2 ^ 1024 % GenReductionLut.M ∧
    (GenReductionLut.lut8Table GenReductionLut.M GenReductionLut.NONREDUNDANT_ELEMENTS
        GenReductionLut.WORD_LEN 0).getD 0 0 = 0 :=
  ⟨rfl, rfl, by decide, by decide⟩

/-- Witness for claim C2 at chunk `i = 0`. -/
theorem t_lut_formulas_witness :
    0 < GenReductionLut.LUT_NUM_ELEMENTS ∧
    GenReductionLut.t_lut8 GenReductionLut.M GenReductionLut.NONREDUNDANT_ELEMENTS
        GenReductionLut.WORD_LEN 0 =
      2 ^ ((0 + GenReductionLut.NONREDUNDANT_ELEMENTS) * GenReductionLut.WORD_LEN) %
        GenReductionLut.M :=
  ⟨by decide,
    (t_lut_formulas GenReductionLut.M GenReductionLut.NONREDUNDANT_ELEMENTS
        GenReductionLut.WORD_LEN 0 (by decide)).1⟩

/-- Claim C3: `adderterm[0]` equals `(M * 2^(3*modBitWidth) - ALLSIGNBITS) mod M`,
and hence `(adderterm[0] + ALLSIGNBITS) mod M = 0`, i.e. `adderterm[0]` is
congruent to `-ALLSIGNBITS` modulo `M`, for every geometry and every positive
modulus. -/
theorem adderterms0_correction (L r M : Nat) (hM : 0 < M) :
    (Modterms.adderterms0 L r M : Int) =
      ((M : Int) * 2 ^ (3 * Modterms.MODBITWIDTH L r) - (Modterms.ALLSIGNBITS L r : Int))
        % (M : Int) ∧
    ((Modterms.adderterms0 L r M : Int) + (Modterms.ALLSIGNBITS L r : Int)) % (M : Int) = 0 := by
  have hM0 : (M : Int) ≠ 0 := by exact_mod_cast hM.ne'
  have hsh : ((M <<< (Modterms.MODBITWIDTH L r * 3) : Nat) : Int)
      = (M : Int) * 2 ^ (3 * Modterms.MODBITWIDTH L r) := by
    rw [Nat.shiftLeft_eq]
    push_cast
    ring
  have h1 : (Modterms.adderterms0 L r M : Int)
      = (((M <<< (Modterms.MODBITWIDTH L r * 3) : Nat) : Int) - (Modterms.ALLSIGNBITS L r : Int))
          % (M : Int) :=
    Int.toNat_of_nonneg (Int.emod_nonneg _ hM0)
  constructor
  · rw [h1, hsh]
  · rw [h1, Int.add_emod, Int.emod_emod_of_dvd _ dvd_rfl, ← Int.add_emod]
    have hcancel : ((M <<< (Modterms.MODBITWIDTH L r * 3) : Nat) : Int)
          - (Modterms.ALLSIGNBITS L r : Int) + (Modterms.ALLSIGNBITS L r : Int)
        = ((M <<< (Modterms.MODBITWIDTH L r * 3) : Nat) : Int) := by ring
    rw [hcancel, hsh, Int.mul_emod_right]

/-- Witness for claim C3 at the reference configuration. -/
theorem adderterms0_correction_witness :
    0 < Modterms.MODULUS ∧
    ((Modterms.adderterms0 Modterms.LOGNUMSYMBOLS Modterms.LOGRADIX Modterms.MODULUS : Int) +
        (Modterms.ALLSIGNBITS Modterms.LOGNUMSYMBOLS Modterms.LOGRADIX : Int))
      % (Modterms.MODULUS : Int) = 0 :=
  ⟨by decide,
    (adderterms0_correction Modterms.LOGNUMSYMBOLS Modterms.LOGRADIX Modterms.MODULUS
        (by decide)).2⟩

/-- Claim C4: for every non-negative integer `x` and every modulus `m ≥ 1`,
`bigmodR(x, m, 1)` returns exactly `x mod m`. -/
theorem bigmodR_eq_mod (x m : Nat) (hm : 1 ≤ m) : Modtest.bigmodR x m 1 = x % m := by
  unfold Modtest.bigmodR
  rw [bigmodRAux_eq m hm x 0 1 hm hm, Nat.zero_add, Nat.mul_one]

/-- Witness for claim C4 at `x = 13`, `m = 5`. -/
theorem bigmodR_eq_mod_witness : 1 ≤ 5 ∧ Modtest.bigmodR 13 5 1 = 13 % 5 :=
  ⟨by decide, bigmodR_eq_mod 13 5 (by decide)⟩

/-- Claim C5: for a positive modulus, every entry written into a `lut8` or
`lut9` output file is a residue strictly below the modulus. -/
theorem lut_entries_lt (Mv nre wl i : Nat) (hM : 0 < Mv) :
    (∀ e ∈ GenReductionLut.lut8File Mv nre wl i, e < Mv) ∧
    (∀ e ∈ GenReductionLut.lut9File Mv nre wl i, e < Mv) := by
  refine ⟨fun e he => ?_, fun e he => ?_⟩
  · simp only [GenReductionLut.lut8File] at he
    rcases List.mem_append.mp he with h | h <;>
    · obtain ⟨j, hj, rfl⟩ := List.mem_map.mp h
      exact Nat.mod_lt _ hM
  · simp only [GenReductionLut.lut9File] at he
    rcases List.mem_append.mp he with h | h <;>
    · obtain ⟨j, hj, rfl⟩ := List.mem_map.mp h
      exact Nat.mod_lt _ hM

/-- Witness for claim C5: the entry `2^1024 mod M` of `lut8_0` is below `M`. -/
theorem lut_entries_lt_witness :
    0 < GenReductionLut.M ∧ 2 ^ 1024 % GenReductionLut.M < GenReductionLut.M :=
  ⟨by decide,
    (lut_entries_lt GenReductionLut.M GenReductionLut.NONREDUNDANT_ELEMENTS
        GenReductionLut.WORD_LEN 0 (by decide)).1 (2 ^ 1024 % GenReductionLut.M) (by decide)⟩

/-- Claim C6: every table entry is the `j`-th multiple of the base multiplier
(the entry at address `1`) reduced modulo the modulus — for every `lut8`
address `j8 < LUT8_SIZE` and, likewise, every `lut9` address `j9 < LUT9_SIZE`,
each table quantified over its own full address range. -/
theorem lut_linear (Mv nre wl i j8 j9 : Nat) (h1 : 1 < GenReductionLut.LUT8_SIZE wl)
    (hj8 : j8 < GenReductionLut.LUT8_SIZE wl) (hj9 : j9 < GenReductionLut.LUT9_SIZE wl) :
    (GenReductionLut.lut8Table Mv nre wl i).getD j8 0 =
      (GenReductionLut.lut8Table Mv nre wl i).getD 1 0 * j8 % Mv ∧
    (GenReductionLut.lut9Table Mv nre wl i).getD j9 0 =
      (GenReductionLut.lut9Table Mv nre wl i).getD 1 0 * j9 % Mv := by
  have h19 : 1 < GenReductionLut.LUT9_SIZE wl :=
    Nat.one_lt_two_pow_iff.mpr (Nat.succ_ne_zero _)
  constructor
  · simp only [GenReductionLut.lut8Table]
    rw [range_map_getD _ _ _ hj8, range_map_getD _ _ _ h1]
    simp only [GenReductionLut.lut8Entry]
    rw [Nat.mul_one, Nat.mod_mul_mod]
  · simp only [GenReductionLut.lut9Table]
    rw [range_map_getD _ _ _ hj9, range_map_getD _ _ _ h19]
    simp only [GenReductionLut.lut9Entry]
    rw [Nat.mul_one, Nat.mod_mul_mod]

/-- Witness for claim C6 at the default configuration, chunk `0`: `lut8`
address `3`, and `lut9` address `300`, which lies in the upper half
`[LUT8_SIZE, LUT9_SIZE)` of `lut9`'s range. -/
theorem lut_linear_witness :
    1 < GenReductionLut.LUT8_SIZE GenReductionLut.WORD_LEN ∧
    3 < GenReductionLut.LUT8_SIZE GenReductionLut.WORD_LEN ∧
    300 < GenReductionLut.LUT9_SIZE GenReductionLut.WORD_LEN ∧
    (GenReductionLut.lut9Table GenReductionLut.M GenReductionLut.NONREDUNDANT_ELEMENTS
        GenReductionLut.WORD_LEN 0).getD 300 0 =
      (GenReductionLut.lut9Table GenReductionLut.M GenReductionLut.NONREDUNDANT_ELEMENTS
          GenReductionLut.WORD_LEN 0).getD 1 0 * 300 % GenReductionLut.M :=
  ⟨by decide, by decide, by decide,
    (lut_linear GenReductionLut.M GenReductionLut.NONREDUNDANT_ELEMENTS GenReductionLut.WORD_LEN
        0 3 300 (by decide) (by decide) (by decide)).2⟩

/-- Claim C7, counterexample: at the default configuration the `lut8_0` file
holds `512` entry lines, not `2^(wordLen/2) = 256` — each table is written
twice into its file. -/
theorem lut8File_length_ne :
    ¬ ((GenReductionLut.lut8File GenReductionLut.M GenReductionLut.NONREDUNDANT_ELEMENTS
          GenReductionLut.WORD_LEN 0).length = 2 ^ (GenReductionLut.WORD_LEN / 2)) := by
  decide

/-- Claim C7, amended: for every configuration and chunk index (including the
last one), the `lut8` file holds exactly `2^(wordLen/2 + 1)` entry lines and
the `lut9` file exactly `2^(wordLen/2 + 2)` — the table entries in increasing
address order, written twice. -/
theorem lutFile_lengths (Mv nre wl i : Nat) :
    (GenReductionLut.lut8File Mv nre wl i).length = 2 ^ (wl / 2 + 1) ∧
    (GenReductionLut.lut9File Mv nre wl i).length = 2 ^ (wl / 2 + 2) := by
  constructor <;>
    simp only [GenReductionLut.lut8File, GenReductionLut.lut9File, GenReductionLut.lut8Table,
      GenReductionLut.lut9Table, GenReductionLut.LUT8_SIZE, GenReductionLut.LUT9_SIZE,
      GenReductionLut.LOOK_UP_WIDTH, List.length_append, List.length_map, List.length_range]
  · rw [pow_succ]
    omega
  · rw [pow_succ 2 (wl / 2 + 1)]
    omega

/-- Claim C8: in each written file the second half duplicates the first — the
line at position `j8 + LUT8_SIZE` of the `lut8` file equals the line at
position `j8`, for every `j8 < LUT8_SIZE`, and likewise the line at position
`j9 + LUT9_SIZE` of the `lut9` file equals the line at position `j9`, for
every `j9 < LUT9_SIZE`, each file quantified over its own full address range. -/
theorem lutFile_dup_half (Mv nre wl i j8 j9 : Nat)
    (hj8 : j8 < GenReductionLut.LUT8_SIZE wl) (hj9 : j9 < GenReductionLut.LUT9_SIZE wl) :
    (GenReductionLut.lut8File Mv nre wl i).getD (j8 + GenReductionLut.LUT8_SIZE wl) 0 =
      (GenReductionLut.lut8File Mv nre wl i).getD j8 0 ∧
    (GenReductionLut.lut9File Mv nre wl i).getD (j9 + GenReductionLut.LUT9_SIZE wl) 0 =
      (GenReductionLut.lut9File Mv nre wl i).getD j9 0 := by
  have hlen8 : (GenReductionLut.lut8Table Mv nre wl i).length = GenReductionLut.LUT8_SIZE wl := by
    simp [GenReductionLut.lut8Table]
  have hlen9 : (GenReductionLut.lut9Table Mv nre wl i).length = GenReductionLut.LUT9_SIZE wl := by
    simp [GenReductionLut.lut9Table]
  constructor
  · simp only [GenReductionLut.lut8File]
    rw [List.getD_append_right _ _ _ _ (by rw [hlen8]; omega), hlen8, Nat.add_sub_cancel,
      List.getD_append _ _ _ j8 (by rw [hlen8]; exact hj8)]
  · simp only [GenReductionLut.lut9File]
    rw [List.getD_append_right _ _ _ _ (by rw [hlen9]; omega), hlen9, Nat.add_sub_cancel,
      List.getD_append _ _ _ j9 (by rw [hlen9]; exact hj9)]

/-- Witness for claim C8 at the default configuration, chunk `0`: `lut8`
address `0`, and `lut9` address `300`, which lies in the upper half
`[LUT8_SIZE, LUT9_SIZE)` of `lut9`'s range. -/
theorem lutFile_dup_half_witness :
    0 < GenReductionLut.LUT8_SIZE GenReductionLut.WORD_LEN ∧
    300 < GenReductionLut.LUT9_SIZE GenReductionLut.WORD_LEN ∧
    (GenReductionLut.lut9File GenReductionLut.M GenReductionLut.NONREDUNDANT_ELEMENTS
        GenReductionLut.WORD_LEN 0).getD
        (300 + GenReductionLut.LUT9_SIZE GenReductionLut.WORD_LEN) 0 =
      (GenReductionLut.lut9File GenReductionLut.M GenReductionLut.NONREDUNDANT_ELEMENTS
          GenReductionLut.WORD_LEN 0).getD 300 0 :=
  ⟨by decide, by decide,
    (lutFile_dup_half GenReductionLut.M GenReductionLut.NONREDUNDANT_ELEMENTS
        GenReductionLut.WORD_LEN 0 0 300 (by decide) (by decide)).2⟩

/-- Claim C9, counterexample: under the reference configuration, `adderterm[2]`
is NOT strictly below the modulus — it is a 1025-bit value, one bit wider than
the 1024-bit `MODULUS`. -/
theorem adderterms2_not_lt :
    ¬ (Modterms.adderterms2 Modterms.LOGNUMSYMBOLS Modterms.LOGRADIX < Modterms.MODULUS) := by
  decide

/-- Claim C9, amended: under the reference configuration, `adderterm[0]`,
`adderterm[1]` and every loop term for `i ∈ [3, 250)` are residues strictly
below `MODULUS`, but `adderterm[2]` is not: it is at least `MODULUS`. -/
theorem adderterm_bounds :
    Modterms.adderterms0 Modterms.LOGNUMSYMBOLS Modterms.LOGRADIX Modterms.MODULUS <
        Modterms.MODULUS ∧
    Modterms.adderterms1 < Modterms.MODULUS ∧
    (∀ i < 250, 3 ≤ i →
      Modterms.termAt Modterms.LOGNUMSYMBOLS Modterms.LOGRADIX Modterms.MODULUS Modterms.x i <
        Modterms.MODULUS) ∧
    Modterms.MODULUS ≤ Modterms.adderterms2 Modterms.LOGNUMSYMBOLS Modterms.LOGRADIX := by
  decide

/-- Witness for claim C9's amended bound at loop index `i = 3`. -/
theorem adderterm_bounds_witness :
    3 < 250 ∧ 3 ≤ 3 ∧
      Modterms.termAt Modterms.LOGNUMSYMBOLS Modterms.LOGRADIX Modterms.MODULUS Modterms.x 3 <
        Modterms.MODULUS :=
  ⟨by decide, by decide, adderterm_bounds.2.2.1 3 (by decide) (by decide)⟩

/-- Claim C10: the `ALLSIGNBITS` construction of `vdf_metzgen_modterms.py`
(adding `2^(logRadix+1)` per slot) and the one of `vdf_metzgen_modtest.py`
(adding `2` per slot, with one final shift by `logRadix`) produce the same
value for every geometry. -/
theorem allsignbits_equiv (L r : Nat) :
    Modterms.ALLSIGNBITS L r = Modtest.ALLSIGNBITS L r :=
  signAccum_shiftLeft r (2 <<< L)
